import Mathlib

/-!
Verification development for the predicateExtraction repository.

The repository's core is embedded shallowly: every definition below is a
direct translation of a Python function from the sources
(`Inverse_RDF_Triples.py`, `RDF_Triples.py`, and the unnamed
`Inverse Verbs.py` part), with Python strings modelled as Lean `String`
(lists of characters) and Python's ASCII-relevant character classes
(`[a-zA-Z]`, `[0-9]`, `str.lower`) modelled arithmetically on code points.
-/

namespace PredicateExtraction

/-! ## Character-level model of Python string primitives -/

/-- Model of Python `str.lower()` on a single character (ASCII case mapping:
code points 65–90 are shifted by 32, everything else is unchanged). -/
def lowerChar (c : Char) : Char :=
  if 65 ≤ c.toNat ∧ c.toNat ≤ 90 then Char.ofNat (c.toNat + 32) else c

/-- Model of Python `str.lower()` on a whole string. -/
def strLower (s : String) : String :=
  ⟨s.data.map lowerChar⟩

theorem toNat_ofNat_of_valid (n : Nat) (h : n.isValidChar) :
    (Char.ofNat n).toNat = n := by
  unfold Char.ofNat
  rw [dif_pos h]
  rfl

theorem lowerChar_toNat_of_upper {c : Char} (h : 65 ≤ c.toNat ∧ c.toNat ≤ 90) :
    (lowerChar c).toNat = c.toNat + 32 := by
  rw [lowerChar, if_pos h]
  exact toNat_ofNat_of_valid _ (Or.inl (by omega))

theorem lowerChar_eq_self_of_not_upper {c : Char} (h : ¬(65 ≤ c.toNat ∧ c.toNat ≤ 90)) :
    lowerChar c = c := by
  rw [lowerChar, if_neg h]

theorem lowerChar_idem (c : Char) : lowerChar (lowerChar c) = lowerChar c := by
  by_cases h : 65 ≤ c.toNat ∧ c.toNat ≤ 90
  · have h2 := lowerChar_toNat_of_upper h
    exact lowerChar_eq_self_of_not_upper (by omega)
  · rw [lowerChar_eq_self_of_not_upper h, lowerChar_eq_self_of_not_upper h]

theorem lowerChar_toNat_cases (c : Char) :
    lowerChar c = c ∨
      (65 ≤ c.toNat ∧ c.toNat ≤ 90 ∧ (lowerChar c).toNat = c.toNat + 32) := by
  by_cases h : 65 ≤ c.toNat ∧ c.toNat ≤ 90
  · exact Or.inr ⟨h.1, h.2, lowerChar_toNat_of_upper h⟩
  · exact Or.inl (lowerChar_eq_self_of_not_upper h)

theorem strLower_idem (s : String) : strLower (strLower s) = strLower s := by
  unfold strLower
  simp only [List.map_map]
  apply congrArg String.mk
  apply List.map_congr_left
  intro a _
  exact lowerChar_idem a

/-! ## Safe-identifier transform (`RDFTripleExtractor._safe_uri`) -/

/-- Character class of the regex `[a-zA-Z0-9 ]` used in `_safe_uri` (the
characters kept by `re.sub(r'[^a-zA-Z0-9 ]', '', text)`). -/
def keepChar (c : Char) : Bool :=
  (65 ≤ c.toNat && c.toNat ≤ 90) || (97 ≤ c.toNat && c.toNat ≤ 122) ||
    (48 ≤ c.toNat && c.toNat ≤ 57) || (c.toNat == 32)

/-- Model of `str.replace(' ', '_')` on one character. -/
def spaceToUnderscore (c : Char) : Char :=
  if c.toNat = 32 then '_' else c

/-- Character pipeline of `_safe_uri`: strip every character outside
`[a-zA-Z0-9 ]`, replace spaces with underscores, lowercase. -/
def safeUriChars (l : List Char) : List Char :=
  ((l.filter keepChar).map spaceToUnderscore).map lowerChar

/-- Embedding of `RDFTripleExtractor._safe_uri`. -/
def safe_uri (text : String) : String :=
  ⟨safeUriChars text.data⟩

theorem spaceToUnderscore_eq_self {c : Char} (h : c.toNat ≠ 32) :
    spaceToUnderscore c = c :=
  if_neg h

theorem keepChar_lowerChar {c : Char} (hk : keepChar c = true) (hs : c.toNat ≠ 32) :
    keepChar (lowerChar c) = true ∧ (lowerChar c).toNat ≠ 32 ∧
      lowerChar (lowerChar c) = lowerChar c := by
  rcases lowerChar_toNat_cases c with h | ⟨h1, h2, h3⟩
  · rw [h]
    exact ⟨hk, hs, h⟩
  · refine ⟨?_, by omega, ?_⟩
    · simp only [keepChar, Bool.or_eq_true, decide_eq_true_eq, Bool.and_eq_true,
        beq_iff_eq] at hk ⊢
      omega
    · exact lowerChar_eq_self_of_not_upper (by omega)

/-- Helper: on a space-free character list, one pass of the `_safe_uri`
pipeline already yields a fixed point of the pipeline. -/
theorem safeUriChars_fixed_of_no_space (l : List Char) (h : ∀ c ∈ l, c.toNat ≠ 32) :
    safeUriChars (safeUriChars l) = safeUriChars l := by
  induction l with
  | nil => rfl
  | cons c cs ih =>
    have hc := h c (List.mem_cons_self c cs)
    have ihcs := ih (fun x hx => h x (List.mem_cons_of_mem c hx))
    unfold safeUriChars at ihcs ⊢
    by_cases hk : keepChar c = true
    · obtain ⟨k1, k2, k3⟩ := keepChar_lowerChar hk hc
      simp only [List.filter_cons, hk, if_true, List.map_cons,
        spaceToUnderscore_eq_self hc, k1, spaceToUnderscore_eq_self k2, k3]
      rw [ihcs]
    · simp only [List.filter_cons, hk]
      simpa using ihcs

/-- Claim C1, counterexample: the safe-identifier transform is not
idempotent — on input `"a b"` one application yields `"a_b"`, but a second
application strips the underscore and yields `"ab"`. -/
theorem safe_uri_not_idempotent :
    safe_uri "a b" = "a_b" ∧ safe_uri (safe_uri "a b") = "ab" ∧
      safe_uri (safe_uri "a b") ≠ safe_uri "a b" := by
  refine ⟨by decide, by decide, by decide⟩

/-- Claim C1, amended: the safe-identifier transform is idempotent on every
input string that contains no space character; in general the second
application additionally strips the underscores produced from spaces. -/
theorem safe_uri_idempotent_of_no_space (s : String) (h : ∀ c ∈ s.data, c ≠ ' ') :
    safe_uri (safe_uri s) = safe_uri s := by
  unfold safe_uri
  apply congrArg String.mk
  apply safeUriChars_fixed_of_no_space
  intro c hc h32
  apply h c hc
  have hval : c.val.toBitVec = (' ' : Char).val.toBitVec := by
    apply BitVec.eq_of_toNat_eq
    exact h32
  exact Char.eq_of_val_eq (UInt32.eq_of_toBitVec_eq hval)

/-- Witness for the amended C1 at the concrete space-free input `"Mix!7"`,
which contains an uppercase letter, a stripped character, and a digit but
no space. -/
theorem safe_uri_idempotent_witness :
    safe_uri (safe_uri "Mix!7") = safe_uri "Mix!7" :=
  safe_uri_idempotent_of_no_space "Mix!7" (by decide)

/-! ## Predicate inverter (`get_inverse_verb`) -/

/-- The irregular-verb table of `get_inverse_verb`, in source order. -/
def irregular_verbs : List (String × String) :=
  [("am", "is for"), ("is", "is for"), ("are", "are for"), ("was", "was for"),
   ("were", "were for"), ("have", "belongs to"), ("has", "belongs to"),
   ("had", "belonged to"), ("do", "done by"), ("does", "done by"),
   ("did", "done by"), ("go", "visited by"), ("goes", "visited by"),
   ("went", "visited by"), ("make", "made by"), ("makes", "made by"),
   ("made", "made by"), ("see", "seen by"), ("sees", "seen by"),
   ("saw", "seen by"), ("write", "written by"), ("writes", "written by"),
   ("wrote", "written by"), ("create", "created by"), ("creates", "created by"),
   ("design", "designed by"), ("designs", "designed by"), ("build", "built by"),
   ("builds", "built by"), ("develop", "developed by"),
   ("develops", "developed by"), ("implement", "implemented by"),
   ("implements", "implemented by"), ("manage", "managed by"),
   ("manages", "managed by")]

/-- Dictionary lookup `verb_lower in irregular_verbs`. -/
def lookupIrregular (s : String) : Option String :=
  irregular_verbs.lookup s

/-- The consonant list of rule 4 (`'bcdfghjklmnpqrstvwxz'`). -/
def consonantsT : List Char := "bcdfghjklmnpqrstvwxz".data

/-- The vowel list `'aeiou'` of the consonant-vowel-consonant check. -/
def vowels : List Char := "aeiou".data

/-- Model of Python `s.endswith(ch)` for a single character. -/
def endsWithChar (w : List Char) (c : Char) : Bool :=
  decide (w.getLast? = some c)

/-- Model of `any(verb_lower.endswith(c + 't') for c in 'bcdfghjklmnpqrstvwxz')`. -/
def endsWithConsT (w : List Char) : Bool :=
  consonantsT.any (fun c => decide (w.reverse.take 2 = ['t', c]))

/-- Model of Python `verb_lower[-3:]`. -/
def lastThree (w : List Char) : List Char :=
  (w.reverse.take 3).reverse

/-- The consonant-vowel-consonant test on `verb_lower[-3:]`: first letter not
in `'aeiou'`, second in `'aeiou'`, third not in `'aeiouy'`. -/
def cvcPattern (lt : List Char) : Bool :=
  match lt with
  | [a, b, c] =>
      decide (a ∉ vowels) && decide (b ∈ vowels) && decide (c ∉ "aeiouy".data)
  | _ => false

/-- Model of Python `verb_lower[-1]` (as a one-character list; the source
only evaluates it when the verb has at least 3 characters). -/
def lastCharList (w : List Char) : List Char :=
  match w.getLast? with
  | some c => [c]
  | none => []

/-- Embedding of `get_inverse_verb` from `Inverse_RDF_Triples.py`: irregular
table first, then the ordered suffix rules on the lowercased verb. -/
def get_inverse_verb (verb : String) : String :=
  match lookupIrregular (strLower verb) with
  | some p => p
  | none =>
    if endsWithChar (strLower verb).data 'e' then
      strLower verb ++ "d by"
    else if endsWithChar (strLower verb).data 'y' then
      ⟨(strLower verb).data.dropLast⟩ ++ "ied by"
    else if endsWithConsT (strLower verb).data then
      strLower verb ++ "ted by"
    else if 3 ≤ (strLower verb).data.length then
      if cvcPattern (lastThree (strLower verb).data) then
        ⟨(strLower verb).data ++ lastCharList (strLower verb).data⟩ ++ "ed by"
      else strLower verb ++ "ed by"
    else strLower verb ++ "ed by"

/-- Claim C4, counterexample: the consonant-vowel-consonant doubling rule
excludes only `'y'` as final consonant, not `'w'` or `'x'`; on input
`"box"` the inverter doubles the final letter and yields `"boxxed by"`,
not the default `"boxed by"` the claim predicts. -/
theorem invert_box_doubles :
    get_inverse_verb "box" = "boxxed by" ∧ get_inverse_verb "box" ≠ "boxed by" :=
  ⟨by decide, by decide⟩

/-- Claim C4, amended: for every verb not in the irregular table whose
lowercased form ends in a consonant-vowel-consonant pattern with final
consonant `'w'` or `'x'`, the inverter DOES double the final letter,
appending it plus `"ed by"` (only `'y'` is excluded from doubling). -/
theorem invert_cvc_wx_doubles (v : String) (a b c : Char)
    (h1 : lookupIrregular (strLower v) = none)
    (pre : List Char) (h2 : (strLower v).data = pre ++ [a, b, c])
    (ha : a ∉ vowels) (hb : b ∈ vowels) (hc : c = 'w' ∨ c = 'x') :
    get_inverse_verb v = ⟨(strLower v).data ++ [c]⟩ ++ "ed by" := by
  have hrev : (strLower v).data.reverse = c :: b :: a :: pre.reverse := by
    rw [h2]
    simp
  have hlast : (strLower v).data.getLast? = some c := by
    rw [List.getLast?_eq_head?_reverse, hrev]
    rfl
  have htake2 : (strLower v).data.reverse.take 2 = [c, b] := by
    rw [hrev]
    rfl
  have htake3 : (strLower v).data.reverse.take 3 = [c, b, a] := by
    rw [hrev]
    rfl
  have hct : c ≠ 't' ∧ c ≠ 'e' ∧ c ≠ 'y' := by
    rcases hc with h | h <;> rw [h] <;> exact ⟨by decide, by decide, by decide⟩
  have he : endsWithChar (strLower v).data 'e' = false := by
    simp only [endsWithChar, hlast, decide_eq_false_iff_not]
    intro hcon
    exact hct.2.1 (Option.some.inj hcon)
  have hy : endsWithChar (strLower v).data 'y' = false := by
    simp only [endsWithChar, hlast, decide_eq_false_iff_not]
    intro hcon
    exact hct.2.2 (Option.some.inj hcon)
  have hcons : endsWithConsT (strLower v).data = false := by
    unfold endsWithConsT
    rw [htake2, List.any_eq_false]
    intro x _
    simp only [decide_eq_true_eq]
    intro hcon
    exact hct.1 (by injection hcon)
  have hlen : 3 ≤ (strLower v).data.length := by
    rw [h2]
    simp
  have hlt : lastThree (strLower v).data = [a, b, c] := by
    unfold lastThree
    rw [htake3]
    rfl
  have hcvc : cvcPattern (lastThree (strLower v).data) = true := by
    rw [hlt]
    unfold cvcPattern
    simp only [Bool.and_eq_true, decide_eq_true_eq]
    refine ⟨⟨ha, hb⟩, ?_⟩
    rcases hc with h | h <;> rw [h] <;> decide
  unfold get_inverse_verb
  simp only [h1, he, hy, hcons, hcvc, Bool.false_eq_true, if_false, if_true]
  rw [if_pos hlen]
  unfold lastCharList
  simp only [hlast]

/-- Witness for the amended C4 at the concrete input `"box"`. -/
theorem invert_cvc_wx_doubles_witness :
    get_inverse_verb "box" = ⟨(strLower "box").data ++ ['x']⟩ ++ "ed by" :=
  invert_cvc_wx_doubles "box" 'b' 'o' 'x' (by decide) [] (by decide)
    (by decide) (by decide) (Or.inr rfl)

theorem lowerChar_not_upper (c : Char) :
    ¬(65 ≤ (lowerChar c).toNat ∧ (lowerChar c).toNat ≤ 90) := by
  by_cases h : 65 ≤ c.toNat ∧ c.toNat ≤ 90
  · have := lowerChar_toNat_of_upper h
    omega
  · rw [lowerChar_eq_self_of_not_upper h]
    exact h

theorem lookup_mem_values {α β : Type} [BEq α] :
    ∀ (l : List (α × β)) (k : α) (p : β),
      List.lookup k l = some p → p ∈ l.map Prod.snd := by
  intro l
  induction l with
  | nil =>
      intro k p h
      simp [List.lookup] at h
  | cons kv rest ih =>
      obtain ⟨k', v⟩ := kv
      intro k p h
      rw [List.lookup_cons] at h
      by_cases hk : (k == k') = true
      · rw [hk] at h
        simp only [Option.some.injEq] at h
        subst h
        simp
      · rw [Bool.eq_false_iff.mpr hk] at h
        simp only [List.map_cons, List.mem_cons]
        exact Or.inr (ih k p h)

theorem irregular_values_no_upper :
    ∀ p ∈ irregular_verbs.map Prod.snd, ∀ c ∈ p.data,
      ¬(65 ≤ c.toNat ∧ c.toNat ≤ 90) := by decide

theorem lastCharList_subset (w : List Char) : ∀ c ∈ lastCharList w, c ∈ w := by
  unfold lastCharList
  cases hl : w.getLast? with
  | none => simp
  | some c0 =>
      intro c hc
      simp only [List.mem_singleton] at hc
      subst hc
      exact List.mem_of_mem_getLast? hl

/-- Claim C8: the predicate inverter is case-insensitive and
lowercase-producing — inverting a verb equals inverting its lowercased
form, the output contains no uppercase (ASCII `A`–`Z`) letter, and any
verb whose lowercased form is a key of the irregular table is mapped to
exactly the table's phrase. -/
theorem invert_case_insensitive (v : String) :
    get_inverse_verb v = get_inverse_verb (strLower v) ∧
      (∀ c ∈ (get_inverse_verb v).data, ¬(65 ≤ c.toNat ∧ c.toNat ≤ 90)) ∧
      (∀ p, lookupIrregular (strLower v) = some p → get_inverse_verb v = p) := by
  refine ⟨?_, ?_, ?_⟩
  · unfold get_inverse_verb
    rw [strLower_idem]
  · have hw : ∀ c ∈ (strLower v).data, ¬(65 ≤ c.toNat ∧ c.toNat ≤ 90) := by
      intro c hcmem
      unfold strLower at hcmem
      simp only [List.mem_map] at hcmem
      obtain ⟨c0, _, rfl⟩ := hcmem
      exact lowerChar_not_upper c0
    unfold get_inverse_verb
    cases hlook : lookupIrregular (strLower v) with
    | some p =>
        intro c hc
        exact irregular_values_no_upper p
          (lookup_mem_values irregular_verbs (strLower v) p hlook) c hc
    | none =>
        have hd : ∀ c ∈ ("d by" : String).data,
            ¬(65 ≤ c.toNat ∧ c.toNat ≤ 90) := by decide
        have hied : ∀ c ∈ ("ied by" : String).data,
            ¬(65 ≤ c.toNat ∧ c.toNat ≤ 90) := by decide
        have hted : ∀ c ∈ ("ted by" : String).data,
            ¬(65 ≤ c.toNat ∧ c.toNat ≤ 90) := by decide
        have hed : ∀ c ∈ ("ed by" : String).data,
            ¬(65 ≤ c.toNat ∧ c.toNat ≤ 90) := by decide
        split_ifs with h1 h2 h3 h4 h5 <;> intro c hc <;>
          rw [String.data_append] at hc <;>
          rcases List.mem_append.mp hc with hm | hm
        · exact hw c hm
        · exact hd c hm
        · exact hw c ((List.dropLast_sublist _).subset hm)
        · exact hied c hm
        · exact hw c hm
        · exact hted c hm
        · rcases List.mem_append.mp hm with hm2 | hm2
          · exact hw c hm2
          · exact hw c (lastCharList_subset _ c hm2)
        · exact hed c hm
        · exact hw c hm
        · exact hed c hm
        · exact hw c hm
        · exact hed c hm
  · intro p hp
    unfold get_inverse_verb
    rw [hp]

/-- Witness for C8 at the concrete input `"DESIGN"`: the inverter agrees
with its lowercased run, returns the table phrase `"designed by"`, and its
first output character is not uppercase. -/
theorem invert_case_insensitive_witness :
    get_inverse_verb "DESIGN" = get_inverse_verb (strLower "DESIGN") ∧
      get_inverse_verb "DESIGN" = "designed by" ∧
      ¬(65 ≤ ('d' : Char).toNat ∧ ('d' : Char).toNat ≤ 90) := by
  have h := invert_case_insensitive "DESIGN"
  exact ⟨h.1, h.2.2 "designed by" (by decide), h.2.1 'd' (by decide)⟩

/-! ## Triples and the triple inverter (`invert_triples`) -/

/-- A subject-predicate-object triple: the dictionaries produced by the
extractor and the rows consumed by `invert_triples`. -/
structure Triple where
  subject : String
  predicate : String
  object : String
deriving DecidableEq, Repr

/-- Body of the inversion loop of `invert_triples`: swap subject and
object and invert the predicate. -/
def invertTriple (t : Triple) : Triple :=
  ⟨t.object, get_inverse_verb t.predicate, t.subject⟩

/-- Embedding of the inversion stage of `invert_triples` (the loop over
`triples` building `inverted_triples` in `Inverse_RDF_Triples.py`). -/
def invertTriples (ts : List Triple) : List Triple :=
  ts.map invertTriple

/-- Claim C5: the triple inverter preserves list length and positional
order — the i-th output triple is (original i-th object, inverted i-th
predicate, original i-th subject), with no reordering or deduplication. -/
theorem invertTriples_pointwise (ts : List Triple) :
    (invertTriples ts).length = ts.length ∧
      ∀ i : Nat, (invertTriples ts)[i]? =
        ts[i]?.map
          (fun t => Triple.mk t.object (get_inverse_verb t.predicate) t.subject) := by
  constructor
  · simp [invertTriples]
  · intro i
    rw [invertTriples, List.getElem?_map]
    cases ts[i]? <;> rfl

/-! ## Value classification helpers shared syntactically by the serializers -/

/-- Python character class `[0-9]`. -/
def isDigitA (c : Char) : Bool :=
  decide (48 ≤ c.toNat ∧ c.toNat ≤ 57)

/-- The portion of a string that `re.match(r'^[0-9]+$', ...)` must fill with
digits: Python's `$` also matches just before one trailing newline. -/
def digitCore (l : List Char) : List Char :=
  if l.getLast? = some '\n' then l.dropLast else l

/-- Embedding of `re.match(r'^[0-9]+$', obj)` viewed as a Boolean test. -/
def matchDigits (s : String) : Bool :=
  !(digitCore s.data).isEmpty && (digitCore s.data).all isDigitA

/-- The literal-detection characters `',."\'(){}[]'` of the serializers
(braces written by code point). -/
def specialChars : List Char :=
  [',', '.', '\"', '\'', '(', ')', '\x7b', '\x7d', '[', ']']

/-- Embedding of `any(char in obj for char in ',."\'(){}[]')`. -/
def hasSpecialChar (s : String) : Bool :=
  specialChars.any (fun c => decide (c ∈ s.data))

/-- Embedding of `obj.lower() in ["true", "false"]`. -/
def isTrueFalse (s : String) : Bool :=
  strLower s == "true" || strLower s == "false"

/-! ## Graph serializers (`_to_turtle`, `_to_n_triples`, `_to_rdf_xml`,
`to_rdf_format`) -/

/-- The fixed Turtle preamble emitted by `_to_turtle`. -/
def turtleHeader : String := "@prefix ex: <http://example.org/> .\n\n"

/-- One predicate/object pair of a Turtle subject block, without the
`;`/`.` separator: numeric/boolean objects unquoted, special-character
objects double-quoted, all else rendered as `ex:` references. -/
def turtlePair (po : String × String) : String :=
  if matchDigits po.2 || isTrueFalse po.2 then
    "    ex:" ++ safe_uri po.1 ++ " " ++ po.2
  else if hasSpecialChar po.2 then
    "    ex:" ++ safe_uri po.1 ++ " \"" ++ po.2 ++ "\""
  else
    "    ex:" ++ safe_uri po.1 ++ " ex:" ++ safe_uri po.2

/-- The pair loop of `_to_turtle`: `" ;\n"` after every pair except the
last, which is closed with `" .\n\n"`. -/
def turtlePairs : List (String × String) → String
  | [] => ""
  | [po] => turtlePair po ++ " .\n\n"
  | po :: rest => turtlePair po ++ " ;\n" ++ turtlePairs rest

/-- Subject grouping shared by `_to_turtle` and `_to_rdf_xml` (a Python
dict in insertion order, each value the list of predicate/object pairs). -/
def groupBySubject (triples : List Triple) : List (String × List (String × String)) :=
  triples.foldl (fun acc t =>
    if acc.any (fun g => g.1 == t.subject) then
      acc.map (fun g =>
        if g.1 == t.subject then (g.1, g.2 ++ [(t.predicate, t.object)]) else g)
    else acc ++ [(t.subject, [(t.predicate, t.object)])]) []

/-- Embedding of `_to_turtle`. -/
def to_turtle (triples : List Triple) : String :=
  turtleHeader ++ (groupBySubject triples).foldl
    (fun out g => out ++ "ex:" ++ safe_uri g.1 ++ "\n" ++ turtlePairs g.2) ""

/-- One line of `_to_n_triples`: objects with special characters or made of
digits become double-quoted literals, all else full references. -/
def ntLine (t : Triple) : String :=
  if hasSpecialChar t.object || matchDigits t.object then
    "<http://example.org/" ++ safe_uri t.subject ++ "> <http://example.org/" ++
      safe_uri t.predicate ++ "> \"" ++ t.object ++ "\" .\n"
  else
    "<http://example.org/" ++ safe_uri t.subject ++ "> <http://example.org/" ++
      safe_uri t.predicate ++ "> <http://example.org/" ++ safe_uri t.object ++ "> .\n"

/-- Embedding of `_to_n_triples`. -/
def to_n_triples (triples : List Triple) : String :=
  triples.foldl (fun out t => out ++ ntLine t) ""

/-- The fixed RDF/XML preamble emitted by `_to_rdf_xml`. -/
def xmlHeader : String :=
  "<?xml version=\"1.0\" encoding=\"UTF-8\"?>\n<rdf:RDF xmlns:rdf=\"http://www.w3.org/1999/02/22-rdf-syntax-ns#\"\n         xmlns:ex=\"http://example.org/\">\n\n"

/-- One property element of `_to_rdf_xml`: literal objects as element text,
reference objects as an `rdf:resource` attribute. -/
def xmlPair (po : String × String) : String :=
  if hasSpecialChar po.2 || matchDigits po.2 then
    "    <ex:" ++ safe_uri po.1 ++ ">" ++ po.2 ++ "</ex:" ++ safe_uri po.1 ++ ">\n"
  else
    "    <ex:" ++ safe_uri po.1 ++ " rdf:resource=\"http://example.org/" ++
      safe_uri po.2 ++ "\"/>\n"

/-- One `rdf:Description` block of `_to_rdf_xml`. -/
def xmlBlock (g : String × List (String × String)) : String :=
  "  <rdf:Description rdf:about=\"http://example.org/" ++ safe_uri g.1 ++ "\">\n" ++
    g.2.foldl (fun out po => out ++ xmlPair po) "" ++ "  </rdf:Description>\n\n"

/-- Embedding of `_to_rdf_xml`. -/
def to_rdf_xml (triples : List Triple) : String :=
  xmlHeader ++ (groupBySubject triples).foldl (fun out g => out ++ xmlBlock g) "" ++
    "</rdf:RDF>"

/-- Embedding of `to_rdf_format`: the empty-input check precedes the format
dispatch; an unknown format raises `ValueError` (modelled as `Except.error`
carrying the message). -/
def to_rdf_format (triples : List Triple) (format : String) : Except String String :=
  if triples.isEmpty then Except.ok ""
  else if format = "turtle" then Except.ok (to_turtle triples)
  else if format = "n-triples" then Except.ok (to_n_triples triples)
  else if format = "xml" then Except.ok (to_rdf_xml triples)
  else Except.error ("Unsupported format: " ++ format)

/-- Claim C10: for the empty triple list the serializer returns the empty
string and raises no error, whatever the format value — the empty-input
check precedes the format check. -/
theorem to_rdf_format_empty (format : String) :
    to_rdf_format [] format = Except.ok "" := rfl

/-- Claim C3, counterexample: with the empty triple list an unknown format
does not fail; the spec's format name `"rdf-xml"` fails even on non-empty
input while the code's actual token `"xml"` succeeds. -/
theorem to_rdf_format_contract_counterexample :
    to_rdf_format [] "bogus" = Except.ok "" ∧
      to_rdf_format [⟨"a", "b", "c"⟩] "rdf-xml" =
        Except.error "Unsupported format: rdf-xml" ∧
      to_rdf_format [⟨"a", "b", "c"⟩] "xml" =
        Except.ok (to_rdf_xml [⟨"a", "b", "c"⟩]) := by
  refine ⟨rfl, rfl, rfl⟩

/-- Claim C3, amended: for every NON-empty triple list and every format
outside `{turtle, n-triples, xml}` the serializer fails with the
unsupported-format error; each of those three formats (and the empty list
with any format) returns text without failing. -/
theorem to_rdf_format_contract (ts : List Triple) (fmt : String) :
    (ts ≠ [] → fmt ≠ "turtle" → fmt ≠ "n-triples" → fmt ≠ "xml" →
      to_rdf_format ts fmt = Except.error ("Unsupported format: " ++ fmt)) ∧
      (to_rdf_format ts "turtle").isOk = true ∧
      (to_rdf_format ts "n-triples").isOk = true ∧
      (to_rdf_format ts "xml").isOk = true := by
  have hne : ∀ (l : List Triple), l ≠ [] → ¬(l.isEmpty = true) := by
    intro l h hcon
    exact h (List.isEmpty_iff.mp hcon)
  refine ⟨?_, ?_, ?_, ?_⟩
  · intro h0 h1 h2 h3
    unfold to_rdf_format
    rw [if_neg (hne ts h0), if_neg h1, if_neg h2, if_neg h3]
  all_goals
    unfold to_rdf_format
    by_cases he : ts.isEmpty = true
  all_goals simp [he, Except.isOk, Except.toBool]

/-- Witness for the amended C3 at a concrete non-empty list and the unknown
format `"json"`. -/
theorem to_rdf_format_contract_witness :
    to_rdf_format [⟨"s", "p", "o"⟩] "json" =
      Except.error "Unsupported format: json" ∧
      (to_rdf_format [⟨"s", "p", "o"⟩] "turtle").isOk = true := by
  have h := to_rdf_format_contract [⟨"s", "p", "o"⟩] "json"
  exact ⟨h.1 (by decide) (by decide) (by decide) (by decide), h.2.1⟩

/-! ## Claim C2: value classification across the serializers -/

theorem strLower_data (s : String) : (strLower s).data = s.data.map lowerChar := rfl

theorem lowerChar_of_digit {c : Char} (h : isDigitA c = true) : lowerChar c = c := by
  simp only [isDigitA, decide_eq_true_eq] at h
  exact lowerChar_eq_self_of_not_upper (by omega)

theorem matchDigits_of_all_digits {o : String} (hne : o.data ≠ [])
    (hall : ∀ c ∈ o.data, isDigitA c = true) : matchDigits o = true := by
  have hlast : o.data.getLast? ≠ some '\n' := by
    cases hg : o.data.getLast? with
    | none => simp
    | some c =>
        have hc := hall c (List.mem_of_mem_getLast? hg)
        simp only [isDigitA, decide_eq_true_eq] at hc
        intro hcon
        have hcn : c = '\n' := Option.some.inj hcon
        subst hcn
        revert hc
        decide
  unfold matchDigits digitCore
  rw [if_neg hlast, Bool.and_eq_true]
  constructor
  · rw [Bool.not_eq_true']
    exact Bool.eq_false_iff.mpr (fun hcon => hne (List.isEmpty_iff.mp hcon))
  · rw [List.all_eq_true]
    exact hall

theorem isTrueFalse_of_lower {o : String}
    (h : strLower o = "true" ∨ strLower o = "false") : isTrueFalse o = true := by
  unfold isTrueFalse
  rcases h with h | h <;> rw [h] <;> decide

theorem specials_fixed : ∀ x ∈ specialChars, lowerChar x = x := by decide

theorem specials_not_in_words : ∀ x ∈ specialChars,
    x ∉ ("true" : String).data ∧ x ∉ ("false" : String).data := by decide

theorem newline_not_in_words :
    ('\n' : Char) ∉ ("true" : String).data ∧
      ('\n' : Char) ∉ ("false" : String).data := by decide

theorem words_no_digit :
    (∀ x ∈ ("true" : String).data, isDigitA x = false) ∧
      (∀ x ∈ ("false" : String).data, isDigitA x = false) := by decide

theorem hasSpecialChar_eq_false_of_lower {o : String}
    (h : strLower o = "true" ∨ strLower o = "false") : hasSpecialChar o = false := by
  unfold hasSpecialChar
  rw [List.any_eq_false]
  intro x hx
  simp only [decide_eq_true_eq]
  intro hmem
  have hlx : lowerChar x ∈ (strLower o).data := by
    rw [strLower_data]
    exact List.mem_map_of_mem lowerChar hmem
  rw [specials_fixed x hx] at hlx
  rcases h with h | h <;> rw [h] at hlx
  · exact (specials_not_in_words x hx).1 hlx
  · exact (specials_not_in_words x hx).2 hlx

theorem matchDigits_eq_false_of_lower {o : String}
    (h : strLower o = "true" ∨ strLower o = "false") : matchDigits o = false := by
  have hdata : o.data.map lowerChar = ("true" : String).data ∨
      o.data.map lowerChar = ("false" : String).data := by
    rcases h with h | h
    · exact Or.inl (by rw [← strLower_data, h])
    · exact Or.inr (by rw [← strLower_data, h])
  have hnl : o.data.getLast? ≠ some '\n' := by
    intro hcon
    have hmem : ('\n' : Char) ∈ o.data := List.mem_of_mem_getLast? hcon
    have hlx := List.mem_map_of_mem lowerChar hmem
    have hfix : lowerChar '\n' = '\n' := by decide
    rw [hfix] at hlx
    rcases hdata with hd | hd <;> rw [hd] at hlx
    · exact newline_not_in_words.1 hlx
    · exact newline_not_in_words.2 hlx
  have hne : o.data ≠ [] := by
    intro hcon
    rcases hdata with hd | hd <;> rw [hcon] at hd <;> simp at hd
  obtain ⟨c0, cs, hcons⟩ := List.exists_cons_of_ne_nil hne
  have hc0mem : c0 ∈ o.data := by
    rw [hcons]
    exact List.mem_cons_self c0 cs
  have hallf : o.data.all isDigitA = false := by
    rw [List.all_eq_false]
    refine ⟨c0, hc0mem, ?_⟩
    intro hdig
    have hlx := List.mem_map_of_mem lowerChar hc0mem
    rw [lowerChar_of_digit hdig] at hlx
    rcases hdata with hd | hd <;> rw [hd] at hlx
    · exact absurd hdig (by rw [words_no_digit.1 c0 hlx]; decide)
    · exact absurd hdig (by rw [words_no_digit.2 c0 hlx]; decide)
  unfold matchDigits digitCore
  rw [if_neg hnl, hallf, Bool.and_false]

/-- Claim C2, counterexample: value classification is NOT shared by the
serializers — the N-Triples serializer renders the boolean-like object
`"true"` as a reference identifier and the digit object `"42"` as a
double-quoted literal, while the Turtle serializer renders `"42"`
unquoted. -/
theorem value_classification_not_shared :
    to_n_triples [⟨"a", "b", "true"⟩] =
      "<http://example.org/a> <http://example.org/b> <http://example.org/true> .\n" ∧
      to_n_triples [⟨"a", "b", "42"⟩] =
        "<http://example.org/a> <http://example.org/b> \"42\" .\n" ∧
      to_turtle [⟨"a", "b", "42"⟩] =
        "@prefix ex: <http://example.org/> .\n\nex:a\n    ex:b 42 .\n\n" := by
  refine ⟨rfl, rfl, rfl⟩

/-- Claim C2, amended: only the Turtle serializer classifies digit strings
and case-insensitive `"true"`/`"false"` as numeric/boolean literals
rendered unquoted; the N-Triples serializer renders digit-string objects
as double-quoted literals and true/false objects as reference
identifiers, and the RDF/XML serializer renders digit-string objects as
element text and true/false objects as `rdf:resource` references. -/
theorem value_classification_per_format (s p o : String) :
    ((o.data ≠ [] ∧ ∀ c ∈ o.data, isDigitA c = true) →
      turtlePair (p, o) = "    ex:" ++ safe_uri p ++ " " ++ o ∧
      ntLine ⟨s, p, o⟩ = "<http://example.org/" ++ safe_uri s ++
        "> <http://example.org/" ++ safe_uri p ++ "> \"" ++ o ++ "\" .\n" ∧
      xmlPair (p, o) = "    <ex:" ++ safe_uri p ++ ">" ++ o ++ "</ex:" ++
        safe_uri p ++ ">\n") ∧
    ((strLower o = "true" ∨ strLower o = "false") →
      turtlePair (p, o) = "    ex:" ++ safe_uri p ++ " " ++ o ∧
      ntLine ⟨s, p, o⟩ = "<http://example.org/" ++ safe_uri s ++
        "> <http://example.org/" ++ safe_uri p ++ "> <http://example.org/" ++
        safe_uri o ++ "> .\n" ∧
      xmlPair (p, o) = "    <ex:" ++ safe_uri p ++
        " rdf:resource=\"http://example.org/" ++ safe_uri o ++ "\"/>\n") := by
  constructor
  · rintro ⟨hne, hall⟩
    have hm := matchDigits_of_all_digits hne hall
    refine ⟨?_, ?_, ?_⟩
    · unfold turtlePair
      simp only [hm, Bool.true_or, if_true]
    · unfold ntLine
      simp only [hm, Bool.or_true, if_true]
    · unfold xmlPair
      simp only [hm, Bool.or_true, if_true]
  · intro hB
    have htf := isTrueFalse_of_lower hB
    have hsc := hasSpecialChar_eq_false_of_lower hB
    have hmd := matchDigits_eq_false_of_lower hB
    refine ⟨?_, ?_, ?_⟩
    · unfold turtlePair
      simp only [htf, Bool.or_true, if_true]
    · unfold ntLine
      simp only [hsc, hmd, Bool.or_false, Bool.false_eq_true, if_false]
    · unfold xmlPair
      simp only [hsc, hmd, Bool.or_false, Bool.false_eq_true, if_false]

/-- Witness for the amended C2 at the concrete objects `"42"` (digits) and
`"TRUE"` (boolean-like in uppercase). -/
theorem value_classification_per_format_witness :
    ntLine ⟨"a", "b", "42"⟩ =
      "<http://example.org/a> <http://example.org/b> \"42\" .\n" ∧
      ntLine ⟨"a", "b", "TRUE"⟩ =
        "<http://example.org/a> <http://example.org/b> <http://example.org/true> .\n" := by
  have h1 := (value_classification_per_format "a" "b" "42").1 ⟨by decide, by decide⟩
  have h2 := (value_classification_per_format "a" "b" "TRUE").2 (Or.inl (by decide))
  exact ⟨h1.2.1.trans (by decide), h2.2.1.trans (by decide)⟩

/-! ## Permissive extractor (`extract_triples_with_nlp`, `RDF_Triples.py`) -/

/-- A token as seen by the permissive extractor: surface text,
part-of-speech tag, dependency label. -/
structure PTok where
  text : String
  pos : String
  dep : String
deriving DecidableEq, Repr

/-- The token-classification loop of `extract_triples_with_nlp`: nouns go
to the subject or object list by dependency (or to both when the
dependency is ambiguous), verbs to the predicate list. -/
def classifyTokens (sent : List PTok) : List String × List String × List String :=
  sent.foldl (fun acc tok =>
    if tok.pos = "NOUN" ∨ tok.pos = "PROPN" then
      if tok.dep = "nsubj" ∨ tok.dep = "nsubjpass" then
        (acc.1 ++ [tok.text], acc.2.1, acc.2.2)
      else if tok.dep = "dobj" ∨ tok.dep = "pobj" ∨ tok.dep = "attr" then
        (acc.1, acc.2.1, acc.2.2 ++ [tok.text])
      else
        (acc.1 ++ [tok.text], acc.2.1, acc.2.2 ++ [tok.text])
    else if tok.pos = "VERB" then
      (acc.1, acc.2.1 ++ [tok.text], acc.2.2)
    else acc) ([], [], [])

/-- The `itertools.product(subjects, predicates, objects)` iteration
order. -/
def tripleProduct (subs preds objs : List String) :
    List (String × String × String) :=
  subs.flatMap (fun s => preds.flatMap (fun p => objs.map (fun ob => (s, p, ob))))

/-- Per-sentence candidate triples: the full product when all three lists
are non-empty, nothing otherwise. -/
def sentenceProduct (sent : List PTok) : List (String × String × String) :=
  match classifyTokens sent with
  | (subs, preds, objs) =>
    if subs ≠ [] ∧ preds ≠ [] ∧ objs ≠ [] then tripleProduct subs preds objs
    else []

/-- The body of the product loop: skip self-referential triples, add the
rest to the document-wide set of unique triples (modelled as an ordered
duplicate-free list). -/
def addTriple (acc : List (String × String × String))
    (t : String × String × String) : List (String × String × String) :=
  if t.1 ≠ t.2.2 then (if t ∈ acc then acc else acc ++ [t]) else acc

/-- Embedding of `extract_triples_with_nlp` over an already-parsed
document (a list of sentences of tokens). -/
def extract_triples_with_nlp (doc : List (List PTok)) :
    List (String × String × String) :=
  doc.foldl (fun acc sent => (sentenceProduct sent).foldl addTriple acc) []

theorem addTriple_invariant (acc : List (String × String × String))
    (t : String × String × String)
    (h : (∀ u ∈ acc, u.1 ≠ u.2.2) ∧ acc.Nodup) :
    (∀ u ∈ addTriple acc t, u.1 ≠ u.2.2) ∧ (addTriple acc t).Nodup := by
  unfold addTriple
  split_ifs with h1 h2
  · exact h
  · constructor
    · intro u hu
      rcases List.mem_append.mp hu with hm | hm
      · exact h.1 u hm
      · rw [List.mem_singleton] at hm
        subst hm
        exact h1
    · rw [List.nodup_append]
      refine ⟨h.2, List.nodup_singleton t, ?_⟩
      intro a ha hat
      rw [List.mem_singleton] at hat
      subst hat
      exact h2 ha
  · exact h

theorem foldl_addTriple_invariant (l : List (String × String × String)) :
    ∀ acc, (∀ u ∈ acc, u.1 ≠ u.2.2) ∧ acc.Nodup →
      (∀ u ∈ l.foldl addTriple acc, u.1 ≠ u.2.2) ∧ (l.foldl addTriple acc).Nodup := by
  induction l with
  | nil => intro acc h; exact h
  | cons t ts ih =>
      intro acc h
      exact ih _ (addTriple_invariant acc t h)

/-- Claim C6: every triple emitted by the permissive extractor satisfies
subject ≠ object, and the emitted collection holds no duplicate
(subject, predicate, object) combination across the whole document. -/
theorem permissive_subject_ne_object_and_nodup (doc : List (List PTok)) :
    (∀ t ∈ extract_triples_with_nlp doc, t.1 ≠ t.2.2) ∧
      (extract_triples_with_nlp doc).Nodup := by
  unfold extract_triples_with_nlp
  suffices hgen : ∀ acc, (∀ u ∈ acc, u.1 ≠ u.2.2) ∧ acc.Nodup →
      (∀ u ∈ doc.foldl (fun acc sent => (sentenceProduct sent).foldl addTriple acc) acc,
        u.1 ≠ u.2.2) ∧
      (doc.foldl (fun acc sent => (sentenceProduct sent).foldl addTriple acc) acc).Nodup by
    exact hgen [] ⟨fun u hu => absurd hu (List.not_mem_nil u), List.nodup_nil⟩
  induction doc with
  | nil => intro acc h; exact h
  | cons sent rest ih =>
      intro acc h
      exact ih _ (foldl_addTriple_invariant (sentenceProduct sent) acc h)

/-- Witness for C6 on a concrete one-sentence document: the triple
("cat", "eats", "fish") is extracted, its subject differs from its object,
and the whole output is duplicate-free. -/
theorem permissive_subject_ne_object_witness :
    ("cat", "eats", "fish") ∈ extract_triples_with_nlp
        [[⟨"cat", "NOUN", "nsubj"⟩, ⟨"eats", "VERB", "ROOT"⟩,
          ⟨"fish", "NOUN", "dobj"⟩]] ∧
      ("cat" : String) ≠ "fish" ∧
      (extract_triples_with_nlp
        [[⟨"cat", "NOUN", "nsubj"⟩, ⟨"eats", "VERB", "ROOT"⟩,
          ⟨"fish", "NOUN", "dobj"⟩]]).Nodup := by
  have h := permissive_subject_ne_object_and_nodup
    [[⟨"cat", "NOUN", "nsubj"⟩, ⟨"eats", "VERB", "ROOT"⟩, ⟨"fish", "NOUN", "dobj"⟩]]
  exact ⟨by decide, h.1 ("cat", "eats", "fish") (by decide), h.2⟩

/-! ## Precise extractor (`RDFTripleExtractor`, `Inverse_RDF_Triples.py`) -/

/-- A dependency-parsed token: sentence position `i`, surface text, lemma,
part-of-speech, dependency label, and the position of its governing head
(the root points at itself, as in spaCy). -/
structure Tok where
  i : Nat
  text : String
  lemmaText : String
  pos : String
  dep : String
  head : Nat
deriving DecidableEq, Repr

/-- The syntactic children of a token: all tokens whose head is it (the
root is not its own child). -/
def children (sent : List Tok) (t : Tok) : List Tok :=
  sent.filter (fun c => c.head == t.i && c.i != t.i)

/-- Token lookup by position index. -/
def getTok (sent : List Tok) (idx : Nat) : Option Tok :=
  sent.find? (fun t => t.i == idx)

/-- The upward walk of `_expand_noun_phrase`: while the current head's
governor is a noun and the current head's relation is compound/amod,
advance to the governor and reset the end boundary to just past it. The
fuel bounds the walk by the sentence length (the head chain of a
well-formed dependency tree is strictly shorter). -/
def walkUp (sent : List Tok) : Nat → Tok → Nat → Tok × Nat
  | 0, hd, endIdx => (hd, endIdx)
  | fuel + 1, hd, endIdx =>
    match getTok sent hd.head with
    | none => (hd, endIdx)
    | some h =>
      if (h.pos = "NOUN" ∨ h.pos = "PROPN") ∧ (hd.dep = "compound" ∨ hd.dep = "amod")
      then walkUp sent fuel h (h.i + 1)
      else (hd, endIdx)

/-- One step of the modifier scan of `_expand_noun_phrase`: tokens headed
by the final head or by the original token pull the start backward
(det/amod/compound/nummod/quantmod before the start) or push the end
forward (amod/compound at or after the end). -/
def scanStep (headI tokenI : Nat) (se : Nat × Nat) (t : Tok) : Nat × Nat :=
  if t.head = headI ∨ t.head = tokenI then
    if (t.dep = "det" ∨ t.dep = "amod" ∨ t.dep = "compound" ∨ t.dep = "nummod" ∨
        t.dep = "quantmod") ∧ t.i < se.1 then (t.i, se.2)
    else if (t.dep = "amod" ∨ t.dep = "compound") ∧ se.2 ≤ t.i then (se.1, t.i + 1)
    else se
  else se

/-- Embedding of `RDFTripleExtractor._expand_noun_phrase`: `none` unless
the token is a noun/proper-noun/pronoun; otherwise the (start, end) span
produced by the upward walk followed by the modifier scan. -/
def expand_noun_phrase (sent : List Tok) (token : Tok) : Option (Nat × Nat) :=
  if token.pos = "NOUN" ∨ token.pos = "PROPN" ∨ token.pos = "PRON" then
    match walkUp sent sent.length token (token.i + 1) with
    | (hd, endIdx0) => some (sent.foldl (scanStep hd.i token.i) (token.i, endIdx0))
  else none

/-- Python truthiness of a spaCy span: non-empty iff start < end. -/
def spanTruthy (sp : Nat × Nat) : Bool :=
  sp.1 < sp.2

/-- Model of `span.text.strip()` for a (start, end) slice of the
sentence. -/
def spanText (sent : List Tok) (sp : Nat × Nat) : String :=
  (String.intercalate " "
    ((sent.filter (fun t => sp.1 ≤ t.i ∧ t.i < sp.2)).map Tok.text)).trim

/-- Embedding of `_find_subject`: expand the first nsubj/nsubjpass child
of the verb (returning that expansion even when it is `none`). -/
def find_subject (sent : List Tok) (verb : Tok) : Option (Nat × Nat) :=
  match (children sent verb).find?
      (fun c => c.dep == "nsubj" || c.dep == "nsubjpass") with
  | some child => expand_noun_phrase sent child
  | none => none

/-- The `if obj:` filter of `_find_objects`: keep only expansions that are
present and truthy. -/
def appendIfTruthy (objs : List (Nat × Nat)) (e : Option (Nat × Nat)) :
    List (Nat × Nat) :=
  match e with
  | some ob => if spanTruthy ob then objs ++ [ob] else objs
  | none => objs

/-- Embedding of `_find_objects`: dobj/attr/pobj children, plus pobj
grandchildren through prep children. -/
def find_objects (sent : List Tok) (verb : Tok) : List (Nat × Nat) :=
  (children sent verb).foldl (fun objs child =>
    if child.dep = "dobj" ∨ child.dep = "attr" ∨ child.dep = "pobj" then
      appendIfTruthy objs (expand_noun_phrase sent child)
    else if child.dep = "prep" then
      (children sent child).foldl (fun o2 gc =>
        if gc.dep = "pobj" then appendIfTruthy o2 (expand_noun_phrase sent gc)
        else o2) objs
    else objs) []

/-- The root search of `_extract_triples_from_sentence`: the first token
with dependency ROOT and part-of-speech VERB. -/
def rootOf (sent : List Tok) : Option Tok :=
  sent.find? (fun t => t.dep == "ROOT" && t.pos == "VERB")

/-- Embedding of `_extract_triples_from_sentence`: primary triples from
the root's subject and objects, then secondary triples from
ccomp/xcomp/advcl verb clauses (inheriting the primary subject when the
clause has no truthy subject of its own). -/
def extractSentence (sent : List Tok) : List Triple :=
  match rootOf sent with
  | none => []
  | some root =>
    match find_subject sent root with
    | none => []
    | some subj =>
      if spanTruthy subj then
        (find_objects sent root).map
          (fun ob => Triple.mk (spanText sent subj) root.lemmaText
            (spanText sent ob)) ++
        sent.foldl (fun acc tok =>
          if (tok.dep = "ccomp" ∨ tok.dep = "xcomp" ∨ tok.dep = "advcl") ∧
              tok.pos = "VERB" then
            acc ++ (find_objects sent tok).map
              (fun ob => Triple.mk
                (spanText sent
                  (match find_subject sent tok with
                   | some sp => if spanTruthy sp then sp else subj
                   | none => subj))
                tok.lemmaText (spanText sent ob))
          else acc) []
      else []

/-- Claim C7: in precise mode a sentence with no ROOT-verb token, or whose
root has no nsubj/nsubjpass child, yields the empty triple list (the
embedding is a total function, so no exception is possible). -/
theorem precise_empty_on_malformed (sent : List Tok) :
    (rootOf sent = none → extractSentence sent = []) ∧
      (∀ root, rootOf sent = some root →
        (∀ c ∈ children sent root, c.dep ≠ "nsubj" ∧ c.dep ≠ "nsubjpass") →
        extractSentence sent = []) := by
  constructor
  · intro h
    unfold extractSentence
    rw [h]
  · intro root hr hc
    have hfs : find_subject sent root = none := by
      unfold find_subject
      have hfind : (children sent root).find?
          (fun c => c.dep == "nsubj" || c.dep == "nsubjpass") = none := by
        rw [List.find?_eq_none]
        intro c hcmem
        rcases hc c hcmem with ⟨h1, h2⟩
        simp [h1, h2]
      rw [hfind]
    simp only [extractSentence, hr, hfs]

/-- Witness for C7: a one-token sentence whose ROOT is not a verb, and a
two-token sentence whose verb root has only an adverb child, both yield
zero triples. -/
theorem precise_empty_on_malformed_witness :
    extractSentence [⟨0, "hello", "hello", "INTJ", "ROOT", 0⟩] = [] ∧
      extractSentence [⟨0, "runs", "run", "VERB", "ROOT", 0⟩,
        ⟨1, "fast", "fast", "ADV", "advmod", 0⟩] = [] := by
  constructor
  · exact (precise_empty_on_malformed _).1 (by decide)
  · exact (precise_empty_on_malformed _).2
      ⟨0, "runs", "run", "VERB", "ROOT", 0⟩ (by decide) (by decide)

/-- Claim C9, counterexample: on a sentence whose compound chain walks to
heads positioned before the token, the expander returns the span (2, 1)
for the accepted noun token at position 4 — the end boundary has moved
before both the start and the original token, so neither start ≤ end nor
inclusion of the token's position holds. -/
theorem expand_span_counterexample :
    expand_noun_phrase
      [⟨0, "alpha", "alpha", "NOUN", "ROOT", 0⟩,
       ⟨1, "x", "x", "X", "punct", 2⟩,
       ⟨2, "beta", "beta", "NOUN", "compound", 0⟩,
       ⟨3, "y", "y", "X", "punct", 2⟩,
       ⟨4, "gamma", "gamma", "NOUN", "compound", 2⟩]
      ⟨4, "gamma", "gamma", "NOUN", "compound", 2⟩ = some (2, 1) ∧
      ¬((2 : Nat) ≤ 1) ∧ ¬((2 : Nat) ≤ 4 ∧ (4 : Nat) < 1) := by
  refine ⟨by decide, by decide, by decide⟩

theorem scanStep_fst_le (hI tI : Nat) (se : Nat × Nat) (t : Tok) :
    (scanStep hI tI se t).1 ≤ se.1 := by
  unfold scanStep
  split_ifs with h1 h2 h3 <;>
    first
    | exact Nat.le_refl _
    | exact Nat.le_of_lt h2.2

theorem foldl_scanStep_fst_le (hI tI : Nat) (l : List Tok) :
    ∀ se : Nat × Nat, (l.foldl (scanStep hI tI) se).1 ≤ se.1 := by
  induction l with
  | nil => intro se; exact Nat.le_refl _
  | cons t ts ih =>
      intro se
      exact Nat.le_trans (ih (scanStep hI tI se t)) (scanStep_fst_le hI tI se t)

/-- Claim C9, amended: for every accepted token the returned span's START
boundary never exceeds the token's position (the scan only moves it
backward); the claim's remaining parts fail because the upward walk RESETS
the end boundary to the head's position, which can land before the start
and before the token. -/
theorem expand_start_le_token (sent : List Tok) (token : Tok) (sp : Nat × Nat)
    (h : expand_noun_phrase sent token = some sp) : sp.1 ≤ token.i := by
  unfold expand_noun_phrase at h
  split_ifs at h with hpos
  rcases hw : walkUp sent sent.length token (token.i + 1) with ⟨hd, e0⟩
  rw [hw] at h
  simp only [Option.some.injEq] at h
  subst h
  exact foldl_scanStep_fst_le hd.i token.i sent (token.i, e0)

/-- Witness for the amended C9 on the compound pair "system engineering":
the expander returns the span (0, 2) for the token at position 0, whose
start boundary 0 does not exceed the token position 0. -/
theorem expand_start_le_token_witness :
    expand_noun_phrase
      [⟨0, "system", "system", "NOUN", "compound", 1⟩,
       ⟨1, "engineering", "engineering", "NOUN", "ROOT", 1⟩]
      ⟨0, "system", "system", "NOUN", "compound", 1⟩ = some (0, 2) ∧
      (0 : Nat) ≤ 0 := by
  refine ⟨by decide, ?_⟩
  exact expand_start_le_token
    [⟨0, "system", "system", "NOUN", "compound", 1⟩,
     ⟨1, "engineering", "engineering", "NOUN", "ROOT", 1⟩]
    ⟨0, "system", "system", "NOUN", "compound", 1⟩ (0, 2) (by decide)

end PredicateExtraction
